import Mathlib

/-!
Shallow embedding of the terminal-emulator detection module
(`src/yazi-adapter/src/emulator.rs`) and of the file sorter
(`src/yazi-fs/src/sorter.rs`).

Side-effecting Rust code is embedded as pure functions over an explicit
environment record (environment-variable lookup, TERM/TERM_PROGRAM strings,
success flags for the fallible terminal-mode and write operations, and the
byte stream available on standard input before EOF or the timeout cuts the
read off).  Terminal-control effects are recorded as explicit event traces.
Byte strings are `List Nat`; the `ascii` helper converts the ASCII string
literals appearing in the source.
-/

/-- The four image-protocol capability tags (`crate::Adapter`).  The enum
itself lives outside the provided sources; its four constructors are taken
from their uses in `emulator.rs` and from the spec's four concrete values. -/
inductive Adapter where
  | Kgp
  | KgpOld
  | Iip
  | Sixel
deriving DecidableEq, Repr

/-- The `Emulator` enum from `emulator.rs`: sixteen named variants plus
`Unknown` carrying a discovered adapter list. -/
inductive Emulator where
  | Unknown (adapters : List Adapter)
  | Kitty
  | Konsole
  | Iterm2
  | WezTerm
  | Foot
  | Ghostty
  | Microsoft
  | Rio
  | BlackBox
  | VSCode
  | Tabby
  | Hyper
  | Mintty
  | Neovim
  | Apple
  | Urxvt
deriving DecidableEq, Repr

/-- `Emulator::adapters`: the fixed, ordered protocol-tag list of each
variant. -/
def Emulator.adapters : Emulator → List Adapter
  | .Unknown adapters => adapters
  | .Kitty => [Adapter.Kgp]
  | .Konsole => [Adapter.KgpOld]
  | .Iterm2 => [Adapter.Iip, Adapter.Sixel]
  | .WezTerm => [Adapter.Iip, Adapter.Sixel]
  | .Foot => [Adapter.Sixel]
  | .Ghostty => [Adapter.Kgp]
  | .Microsoft => [Adapter.Sixel]
  | .Rio => [Adapter.Iip, Adapter.Sixel]
  | .BlackBox => [Adapter.Sixel]
  | .VSCode => [Adapter.Iip, Adapter.Sixel]
  | .Tabby => [Adapter.Iip, Adapter.Sixel]
  | .Hyper => [Adapter.Iip, Adapter.Sixel]
  | .Mintty => [Adapter.Iip]
  | .Neovim => []
  | .Apple => []
  | .Urxvt => []

/-- ASCII string literal as a byte list. -/
def ascii (s : String) : List Nat := s.toList.map Char.toNat

/-- Byte-level substring containment, the model of Rust `str::contains` /
slice search for the ASCII needles used by the classifier. -/
def listInfix (needle : List Nat) : List Nat → Bool
  | [] => needle.isEmpty
  | h :: t => needle.isPrefixOf (h :: t) || listInfix needle t

/-- The suffix of the buffer after the most recently seen escape byte 0x1b:
the segment that `buf.rsplitn(2, |&b| b == 0x1b).next()` yields in
`read_until_da1` (the whole buffer when no 0x1b is present). -/
def afterLastEsc (l : List Nat) : List Nat :=
  ((l.reverse.takeWhile (fun b => b != 27))).reverse

/-- One-byte-at-a-time read loop of `Emulator::read_until_da1`.  `input` is
the byte stream standard input delivers before EOF or the 10-second timeout
abandons the read (both of which merely stop the loop; the accumulated
buffer is kept).  Each iteration reads one byte, pushes it, and breaks when
the byte is ASCII 0x63 and the segment after the last escape byte starts
with the two bytes 0x5b 0x3f. -/
def readLoop : List Nat → List Nat → List Nat
  | [], buf => buf
  | c :: rest, buf =>
    let buf2 := buf ++ [c]
    if c != 99 || !(buf2.contains 27) then
      readLoop rest buf2
    else if (ascii "[?").isPrefixOf (afterLastEsc buf2) then
      buf2
    else
      readLoop rest buf2

/-- `Emulator::read_until_da1` on a given available input stream. -/
def read_until_da1 (input : List Nat) : List Nat := readLoop input []

/-- The break condition of the read loop, as a predicate of the accumulated
buffer: the newest (last) byte equals the device-attributes terminator
0x63 and the buffer segment after the most recent 0x1b starts with the
two-byte prefix 0x5b 0x3f. -/
def da1Stop (buf : List Nat) : Bool :=
  match buf.getLast? with
  | none => false
  | some c => c == 99 && buf.contains 27 && (ascii "[?").isPrefixOf (afterLastEsc buf)

/-- The self-identification substrings checked by `via_csi`, in declared
order, with the variant each one yields. -/
def namesTable : List (List Nat × Emulator) :=
  [(ascii "kitty", Emulator.Kitty),
   (ascii "Konsole", Emulator.Konsole),
   (ascii "iTerm2", Emulator.Iterm2),
   (ascii "WezTerm", Emulator.WezTerm),
   (ascii "foot", Emulator.Foot),
   (ascii "ghostty", Emulator.Ghostty)]

/-- The graphics-protocol acknowledgment needle `"\x1b_Gi=31;OK"`. -/
def kgpAckPat : List Nat := ascii "\x1b_Gi=31;OK"

/-- The four sixel-capability needles `["?4;", "?4c", ";4;", ";4c"]`. -/
def sixelPats : List (List Nat) :=
  [ascii "?4;", ascii "?4c", ascii ";4;", ascii ";4c"]

/-- Classification half of `Emulator::via_csi` (lines 125-148): first the
six self-identifying names in declared order, first hit wins; otherwise an
adapter list built by pushing `KgpOld` when the acknowledgment substring
occurs and then `Sixel` when any of the four sixel needles occurs. -/
def classify (resp : List Nat) : Emulator :=
  match namesTable.find? (fun p => listInfix p.1 resp) with
  | some p => p.2
  | none =>
    let adapters :=
      (if listInfix kgpAckPat resp then [Adapter.KgpOld] else []) ++
      (if sixelPats.any (fun s => listInfix s resp) then [Adapter.Sixel] else [])
    Emulator.Unknown adapters

/-- Terminal-mode events performed by `via_csi`, in order: raw-mode entry,
the combined query write, and the deferred `disable_raw_mode` call. -/
inductive CsiEvent where
  | enableRaw
  | writeQuery
  | disableRaw
deriving DecidableEq, Repr

/-- The ambient state a detection call observes: environment-variable
existence, the passthrough-aware TERM / TERM_PROGRAM strings that
`via_env` resolves through the external `Mux` collaborator, whether
`enable_raw_mode` and the query `execute!` succeed, and the bytes standard
input delivers before EOF or the timeout. -/
structure Env where
  envExists : String → Bool
  term : String
  program : String
  enableRawOk : Bool
  writeOk : Bool
  stdin : List Nat

/-- `Emulator::via_env`, with the external `Mux::term_program` passthrough
resolution absorbed into the environment record. -/
def via_env (e : Env) : String × String := (e.term, e.program)

/-- `Emulator::via_csi`: result paired with the trace of terminal-mode
events.  The `defer! { disable_raw_mode().ok(); }` guard is registered
before `enable_raw_mode()`, so `disableRaw` is the final event on every
path: enable failure, write failure, and normal return (read errors and
the timeout are swallowed inside `read_until_da1`, which still returns the
accumulated buffer). -/
def via_csi (e : Env) : Except Unit Emulator × List CsiEvent :=
  if !e.enableRawOk then
    (Except.error (), [CsiEvent.disableRaw])
  else if !e.writeOk then
    (Except.error (), [CsiEvent.enableRaw, CsiEvent.disableRaw])
  else
    (Except.ok (classify (read_until_da1 e.stdin)),
     [CsiEvent.enableRaw, CsiEvent.writeQuery, CsiEvent.disableRaw])

/-- The eight emulator-specific existence-only markers of `detect`
(lines 63-72), in declared order. -/
def envVars : List (String × Emulator) :=
  [("KITTY_WINDOW_ID", Emulator.Kitty),
   ("KONSOLE_VERSION", Emulator.Konsole),
   ("ITERM_SESSION_ID", Emulator.Iterm2),
   ("WEZTERM_EXECUTABLE", Emulator.WezTerm),
   ("GHOSTTY_RESOURCES_DIR", Emulator.Ghostty),
   ("WT_Session", Emulator.Microsoft),
   ("VSCODE_INJECTION", Emulator.VSCode),
   ("TABBY_CONFIG_DIRECTORY", Emulator.Tabby)]

/-- The TERM_PROGRAM match arms of `detect` (lines 79-91), in declared
order. -/
def programVars : List (String × Emulator) :=
  [("iTerm.app", Emulator.Iterm2),
   ("WezTerm", Emulator.WezTerm),
   ("ghostty", Emulator.Ghostty),
   ("rio", Emulator.Rio),
   ("BlackBox", Emulator.BlackBox),
   ("vscode", Emulator.VSCode),
   ("Tabby", Emulator.Tabby),
   ("Hyper", Emulator.Hyper),
   ("mintty", Emulator.Mintty),
   ("Apple_Terminal", Emulator.Apple)]

/-- The TERM match arms of `detect` (lines 92-99), in declared order. -/
def termVars : List (String × Emulator) :=
  [("xterm-kitty", Emulator.Kitty),
   ("foot", Emulator.Foot),
   ("foot-extra", Emulator.Foot),
   ("xterm-ghostty", Emulator.Ghostty),
   ("rio", Emulator.Rio),
   ("rxvt-unicode-256color", Emulator.Urxvt)]

/-- Match a string against a table of exact-value arms, first hit wins
(the model of a Rust `match` over string literals). -/
def lookupStr (s : String) (table : List (String × Emulator)) : Option Emulator :=
  (table.find? (fun p => p.1 == s)).map (fun p => p.2)

/-- `Result::unwrap_or`. -/
def unwrapOr (r : Except Unit Emulator) (d : Emulator) : Emulator :=
  match r with
  | Except.ok v => v
  | Except.error _ => d

/-- `Emulator::detect`: Neovim when both editor markers exist, else the
eight direct markers in order, else the TERM_PROGRAM arms, else the TERM
arms, else the live probe with `unwrap_or(Unknown(vec![]))`. -/
def detect (e : Env) : Emulator :=
  if e.envExists "NVIM_LOG_FILE" && e.envExists "NVIM" then
    Emulator.Neovim
  else
    match envVars.find? (fun v => e.envExists v.1) with
    | some v => v.2
    | none =>
      match lookupStr (via_env e).2 programVars with
      | some em => em
      | none =>
        match lookupStr (via_env e).1 termVars with
        | some em => em
        | none => unwrapOr (via_csi e).1 (Emulator.Unknown [])

/-- Cursor/buffer events performed by `Emulator::move_lock`, in order of
emission.  `flushEv` is a flush of the locked stderr stream: both the
`execute!` macro (which queues its commands and then flushes) and the final
`buf.flush()` emit one. -/
inductive MoveEvent where
  | savePos
  | moveTo (x y : Nat)
  | show
  | hide
  | restorePos
  | sleepMs (ms : Nat)
  | flushEv
  | cbWrite (tag : Nat)
deriving DecidableEq, Repr

/-- `Emulator::move_lock`, as the trace of events written to the locked
stream paired with the returned result.  `drift` is the condition
`*TMUX || cfg!(windows)`; the callback is modelled by the events it writes
(`cbTrace`) and the result it returns (`cbOk`).  Terminal writes are
modelled as succeeding (their failures only propagate out via `?` and are
not what the claims quantify over).  In the drift branch each of the three
`execute!` calls queues its commands and flushes; otherwise a single
`queue!` buffers without flushing.  After the callback, the restoration
commands are queued and the buffer is flushed once more. -/
def move_lock (drift : Bool) (x y : Nat) (cbTrace : List MoveEvent) (cbOk : Bool) :
    List MoveEvent × Bool :=
  let pre :=
    if drift then
      [MoveEvent.savePos, MoveEvent.moveTo x y, MoveEvent.show, MoveEvent.flushEv,
       MoveEvent.moveTo x y, MoveEvent.show, MoveEvent.flushEv,
       MoveEvent.moveTo x y, MoveEvent.show, MoveEvent.flushEv,
       MoveEvent.sleepMs 1]
    else
      [MoveEvent.savePos, MoveEvent.moveTo x y]
  let post :=
    if drift then [MoveEvent.hide, MoveEvent.restorePos]
    else [MoveEvent.restorePos]
  (pre ++ cbTrace ++ post ++ [MoveEvent.flushEv], cbOk)

/-- `SortBy` from `yazi_config::manager` (external to the provided sources;
its eight variants are taken from their exhaustive uses in `sorter.rs`). -/
inductive SortBy where
  | None
  | Mtime
  | Btime
  | Extension
  | Alphabetical
  | Natural
  | Size
  | Random
deriving DecidableEq, Repr

/-- The fields of `yazi_shared::fs::File` that `sorter.rs` reads.  The type
is external to the provided sources; names and extensions are byte lists,
timestamps and sizes are naturals, and `urn` keys the directory-size map. -/
structure File where
  name : List Nat
  isDir : Bool
  mtime : Nat
  btime : Nat
  len : Nat
  ext : Option (List Nat)
  urn : Nat
deriving DecidableEq, Repr

/-- `FilesSorter` from `sorter.rs`. -/
structure FilesSorter where
  by1 : SortBy
  sensitive : Bool
  reverse : Bool
  dir_first : Bool
  translit : Bool
deriving DecidableEq, Repr

/-- Rust `bool` ordering: `false < true`. -/
def cmpBool : Bool → Bool → Ordering
  | false, false => Ordering.eq
  | false, true => Ordering.lt
  | true, false => Ordering.gt
  | true, true => Ordering.eq

/-- Rust slice/`Vec` ordering: lexicographic, a strict prefix is smaller. -/
def cmpList : List Nat → List Nat → Ordering
  | [], [] => Ordering.eq
  | [], _ :: _ => Ordering.lt
  | _ :: _, [] => Ordering.gt
  | a :: asx, b :: bs =>
    match compare a b with
    | Ordering.eq => cmpList asx bs
    | o => o

/-- Rust `Option` ordering: `None` below any `Some`. -/
def cmpOpt (c : List Nat → List Nat → Ordering) : Option (List Nat) → Option (List Nat) → Ordering
  | none, none => Ordering.eq
  | none, some _ => Ordering.lt
  | some _, none => Ordering.gt
  | some a, some b => c a b

/-- `u8::to_ascii_uppercase` mapped over a byte string. -/
def toUpperBytes (l : List Nat) : List Nat :=
  l.map (fun b => if 97 ≤ b ∧ b ≤ 122 then b - 32 else b)

/-- `u8::to_ascii_lowercase` mapped over a byte string. -/
def toLowerBytes (l : List Nat) : List Nat :=
  l.map (fun b => if 65 ≤ b ∧ b ≤ 90 then b + 32 else b)

/-- `FilesSorter::promote`: directories before files when `dir_first`,
otherwise no promotion. -/
def FilesSorter.promote (s : FilesSorter) (a b : File) : Ordering :=
  if s.dir_first then cmpBool b.isDir a.isDir else Ordering.eq

/-- `FilesSorter::cmp`: the promotion wins when it is not `Equal`;
otherwise the key comparison, swapped under `reverse`.  The generic
`T: Ord` comparison is passed explicitly as `c`. -/
def FilesSorter.cmp {T : Type} (s : FilesSorter) (c : T → T → Ordering)
    (a b : T) (promote : Ordering) : Ordering :=
  if promote != Ordering.eq then promote
  else if s.reverse then c b a else c a b

/-- The `by_alphabetical` closure of `FilesSorter::sort`. -/
def byAlphabetical (s : FilesSorter) (a b : File) : Ordering :=
  if s.sensitive then
    s.cmp cmpList a.name b.name (s.promote a b)
  else
    s.cmp cmpList (toUpperBytes a.name) (toUpperBytes b.name) (s.promote a b)

/-- The comparator of `FilesSorter::sort_naturally`: promotion first, then
`natsort` (an external function of `yazi_shared`, passed as the oracle
`nats` together with the external transliteration `trf`), reversed under
`reverse`. -/
def naturalCmp (s : FilesSorter)
    (nats : List Nat → List Nat → Bool → Ordering)
    (trf : List Nat → List Nat) (a b : File) : Ordering :=
  let promote := s.promote a b
  if promote != Ordering.eq then promote
  else
    let ordering :=
      if s.translit then nats (trf a.name) (trf b.name) (!s.sensitive)
      else nats a.name b.name (!s.sensitive)
    if s.reverse then ordering.swap else ordering

/-- The per-variant comparator passed to `sort_unstable_by` in
`FilesSorter::sort` (and, for `Natural`, the index comparator of
`sort_naturally`).  `sizes` is the directory-size map keyed by urn; `rng`
is an oracle yielding the two `LcgRng::next()` draws the `Random`
comparator consumes on each invocation.  `SortBy::None` sorts nothing, so
its comparator is never consulted. -/
def sortCmp (s : FilesSorter) (sizes : Nat → Option Nat)
    (nats : List Nat → List Nat → Bool → Ordering)
    (trf : List Nat → List Nat)
    (rng : File → File → Nat × Nat) (a b : File) : Ordering :=
  match s.by1 with
  | SortBy.None => Ordering.eq
  | SortBy.Mtime =>
    let ord := s.cmp compare a.mtime b.mtime (s.promote a b)
    if ord == Ordering.eq then byAlphabetical s a b else ord
  | SortBy.Btime =>
    let ord := s.cmp compare a.btime b.btime (s.promote a b)
    if ord == Ordering.eq then byAlphabetical s a b else ord
  | SortBy.Extension =>
    let ord :=
      if s.sensitive then
        s.cmp (cmpOpt cmpList) a.ext b.ext (s.promote a b)
      else
        s.cmp (cmpOpt cmpList) (a.ext.map toLowerBytes) (b.ext.map toLowerBytes)
          (s.promote a b)
    if ord == Ordering.eq then byAlphabetical s a b else ord
  | SortBy.Alphabetical => byAlphabetical s a b
  | SortBy.Natural => naturalCmp s nats trf a b
  | SortBy.Size =>
    let aa := if a.isDir then sizes a.urn else none
    let bb := if b.isDir then sizes b.urn else none
    let ord := s.cmp compare (aa.getD a.len) (bb.getD b.len) (s.promote a b)
    if ord == Ordering.eq then byAlphabetical s a b else ord
  | SortBy.Random =>
    let r := rng a b
    s.cmp compare r.1 r.2 (s.promote a b)

/-- Insertion step of the comparison sort modelling `sort_unstable_by`. -/
def insertOrd (le : File → File → Bool) (x : File) : List File → List File
  | [] => [x]
  | y :: ys => if le x y then x :: y :: ys else y :: insertOrd le x ys

/-- Comparison sort modelling Rust `sort_unstable_by`: reorders the list
consistently with the comparator (`a` may precede `b` whenever
`cmp a b ≠ Greater`). -/
def sortUnstableBy (c : File → File → Ordering) : List File → List File
  | [] => []
  | x :: xs => insertOrd (fun a b => c a b != Ordering.gt) x (sortUnstableBy c xs)

/-- `FilesSorter::sort` (with `sort_naturally` inlined as the `Natural`
branch): `SortBy::None` returns the items untouched; every other variant
sorts with its comparator. -/
def FilesSorter.sortFiles (s : FilesSorter) (sizes : Nat → Option Nat)
    (nats : List Nat → List Nat → Bool → Ordering)
    (trf : List Nat → List Nat)
    (rng : File → File → Nat × Nat) (items : List File) : List File :=
  match s.by1 with
  | SortBy.None => items
  | _ => sortUnstableBy (sortCmp s sizes nats trf rng) items

/-- A concrete environment where raw-mode entry succeeds but the query
write fails. -/
def envWriteFail : Env :=
  { envExists := fun _ => false, term := "", program := "",
    enableRawOk := true, writeOk := false, stdin := [] }

/-- A concrete environment where every marker is absent, both identity
strings are empty, and raw-mode entry fails. -/
def envAllOff : Env :=
  { envExists := fun _ => false, term := "", program := "",
    enableRawOk := false, writeOk := false, stdin := [] }

/-- A concrete environment with no markers and the program identity set to
the exact value `vscode`. -/
def envVscode : Env :=
  { envExists := fun _ => false, term := "", program := "vscode",
    enableRawOk := false, writeOk := false, stdin := [] }

/-- The behavior of `readLoop` on a remaining input stream, relative to an
already-accumulated buffer: it consumes some prefix of the input one byte
at a time, never stops while the terminator condition is false, and stops
as soon as it turns true (consuming everything only at EOF). -/
def ReadLoopSpec (input buf : List Nat) : Prop :=
  ∃ n, n ≤ input.length ∧
    readLoop input buf = buf ++ input.take n ∧
    (∀ m, 1 ≤ m → m < n → da1Stop (buf ++ input.take m) = false) ∧
    (n < input.length → da1Stop (buf ++ input.take n) = true)

/-- Directory-first order on an output list: no non-directory ever
precedes a directory. -/
def DirsFirstRel (a b : File) : Prop := b.isDir = true → a.isDir = true

instance : DecidableRel DirsFirstRel := fun a b => by
  unfold DirsFirstRel
  infer_instance

/-- A sorter that performs no sorting at all but has `dir_first` set. -/
def sorterNone : FilesSorter :=
  { by1 := SortBy.None, sensitive := false, reverse := false,
    dir_first := true, translit := false }

/-- A non-directory item. -/
def plainFile : File :=
  { name := [97], isDir := false, mtime := 0, btime := 0, len := 0, ext := none, urn := 0 }

/-- A directory item. -/
def plainDir : File :=
  { name := [98], isDir := true, mtime := 0, btime := 0, len := 0, ext := none, urn := 1 }

/-- A reversed, case-insensitive alphabetical sorter with `dir_first`. -/
def sorterAlpha : FilesSorter :=
  { by1 := SortBy.Alphabetical, sensitive := false, reverse := true,
    dir_first := true, translit := false }

/-- Every entry of the six-name classification table maps to a variant
other than `Neovim`. -/
theorem namesTable_ne_neovim : ∀ q ∈ namesTable, q.2 ≠ Emulator.Neovim := by decide

/-- The classifier never yields the `Neovim` variant: every named hit is
one of the six probe names and the fallback is `Unknown`. -/
theorem classify_ne_neovim (resp : List Nat) : classify resp ≠ Emulator.Neovim := by
  cases hf : namesTable.find? (fun p => listInfix p.1 resp) with
  | some p =>
    simp [classify, hf, namesTable_ne_neovim p (List.mem_of_find?_eq_some hf)]
  | none => simp [classify, hf]

/-- A successful table lookup returns the second component of some table
entry. -/
theorem lookupStr_mem_snd {s : String} {table : List (String × Emulator)} {em : Emulator}
    (h : lookupStr s table = some em) : ∃ p ∈ table, p.2 = em := by
  unfold lookupStr at h
  cases hf : table.find? (fun p => p.1 == s) with
  | some p =>
    rw [hf] at h
    exact ⟨p, List.mem_of_find?_eq_some hf, by simpa using h⟩
  | none => rw [hf] at h; simp at h

/-- C1: in every execution of `via_csi` in which raw-mode entry succeeds,
the deferred `disable_raw_mode` call runs on every exit path — write
failure, read error, timeout, and normal return — and it is the final
terminal-mode event of the call. -/
theorem c1_raw_mode_always_restored (e : Env) (h : e.enableRawOk = true) :
    (via_csi e).2.getLast? = some CsiEvent.disableRaw ∧
      CsiEvent.disableRaw ∈ (via_csi e).2 := by
  cases hw : e.writeOk <;> simp [via_csi, h, hw]

/-- Witness for C1 at a concrete environment whose raw-mode entry succeeds
and whose query write fails. -/
theorem c1_raw_mode_always_restored_witness :
    envWriteFail.enableRawOk = true ∧
      ((via_csi envWriteFail).2.getLast? = some CsiEvent.disableRaw ∧
        CsiEvent.disableRaw ∈ (via_csi envWriteFail).2) :=
  ⟨rfl, c1_raw_mode_always_restored envWriteFail rfl⟩

/-- C3: the probe fails exactly when raw-mode entry or the initial query
write fails (timeout, EOF and unclassifiable responses still produce `ok`),
and when detection falls through every environment stage and the probe
fails, `detect` yields `Unknown` with an empty adapter list. -/
theorem c3_error_only_on_setup (e : Env)
    (h1 : (e.envExists "NVIM_LOG_FILE" && e.envExists "NVIM") = false)
    (h2 : envVars.find? (fun v => e.envExists v.1) = none)
    (h3 : lookupStr e.program programVars = none)
    (h4 : lookupStr e.term termVars = none) :
    ((∃ em, (via_csi e).1 = Except.ok em) ↔
        (e.enableRawOk = true ∧ e.writeOk = true)) ∧
      (¬(e.enableRawOk = true ∧ e.writeOk = true) →
        detect e = Emulator.Unknown []) := by
  cases he : e.enableRawOk <;> cases hw : e.writeOk <;>
    simp [via_csi, he, hw, detect, h1, h2, h3, h4, via_env, unwrapOr]

/-- Witness for C3 at a concrete environment where every stage falls
through and raw-mode entry fails: the probe result is an error and the
detection result is the empty `Unknown`. -/
theorem c3_error_only_on_setup_witness :
    (¬∃ em, (via_csi envAllOff).1 = Except.ok em) ∧
      detect envAllOff = Emulator.Unknown [] := by
  have h := c3_error_only_on_setup envAllOff rfl (by decide) (by decide) (by decide)
  refine ⟨fun hex => ?_, h.2 (by decide)⟩
  have hok := h.1.mp hex
  simp [envAllOff] at hok

/-- C8: detection yields the `Neovim` variant exactly when both editor
markers (`NVIM_LOG_FILE` and `NVIM`) exist; no direct marker, identity
string, or probe outcome can produce it, and a single editor marker falls
through to the later stages. -/
theorem c8_neovim_iff_both_markers (e : Env) :
    detect e = Emulator.Neovim ↔
      (e.envExists "NVIM_LOG_FILE" = true ∧ e.envExists "NVIM" = true) := by
  constructor
  · intro hd
    by_cases hnv : (e.envExists "NVIM_LOG_FILE" && e.envExists "NVIM") = true
    · simpa [Bool.and_eq_true] using hnv
    · exfalso
      rw [detect, if_neg hnv] at hd
      cases hf : envVars.find? (fun v => e.envExists v.1) with
      | some v =>
        rw [hf] at hd
        have hall : ∀ q ∈ envVars, q.2 ≠ Emulator.Neovim := by decide
        exact hall v (List.mem_of_find?_eq_some hf) hd
      | none =>
        rw [hf] at hd
        dsimp only at hd
        cases hp : lookupStr (via_env e).2 programVars with
        | some em =>
          rw [hp] at hd
          obtain ⟨p, hpm, hp2⟩ := lookupStr_mem_snd hp
          have hall : ∀ q ∈ programVars, q.2 ≠ Emulator.Neovim := by decide
          exact hall p hpm (hp2.trans hd)
        | none =>
          rw [hp] at hd
          dsimp only at hd
          cases ht : lookupStr (via_env e).1 termVars with
          | some em =>
            rw [ht] at hd
            obtain ⟨p, hpm, hp2⟩ := lookupStr_mem_snd ht
            have hall : ∀ q ∈ termVars, q.2 ≠ Emulator.Neovim := by decide
            exact hall p hpm (hp2.trans hd)
          | none =>
            rw [ht] at hd
            dsimp only at hd
            cases he : e.enableRawOk <;> cases hw : e.writeOk <;>
              simp [via_csi, he, hw, unwrapOr] at hd
            exact classify_ne_neovim _ hd
  · intro h
    simp [detect, h.1, h.2]

/-- `da1Stop` of a buffer with a freshly pushed byte, in the shape the
read loop tests it. -/
theorem da1Stop_concat (buf : List Nat) (c : Nat) :
    da1Stop (buf ++ [c]) =
      (c == 99 && (buf ++ [c]).contains 27 &&
        (ascii "[?").isPrefixOf (afterLastEsc (buf ++ [c]))) := by
  unfold da1Stop
  rw [List.getLast?_concat]

/-- A continuing iteration preserves the read-loop characterization. -/
theorem readLoopSpec_cons_cont (c : Nat) (rest buf : List Nat)
    (ih : ReadLoopSpec rest (buf ++ [c]))
    (hstop : da1Stop (buf ++ [c]) = false)
    (heq : readLoop (c :: rest) buf = readLoop rest (buf ++ [c])) :
    ReadLoopSpec (c :: rest) buf := by
  obtain ⟨n, hn, he, hm, hs⟩ := ih
  refine ⟨n + 1, by simpa using Nat.succ_le_succ hn, ?_, ?_, ?_⟩
  · rw [heq, he, List.take_succ_cons]
    simp
  · intro m h1 hlt
    match m, h1 with
    | 1, _ => simpa using hstop
    | k + 2, _ =>
      have harr : buf ++ (c :: rest).take (k + 2) = (buf ++ [c]) ++ rest.take (k + 1) := by
        simp [List.take_succ_cons]
      rw [harr]
      exact hm (k + 1) (by omega) (by omega)
  · intro hlt
    have harr : buf ++ (c :: rest).take (n + 1) = (buf ++ [c]) ++ rest.take n := by
      simp [List.take_succ_cons]
    rw [harr]
    exact hs (by simpa using Nat.lt_of_succ_lt_succ hlt)

/-- The read-loop characterization, by induction on the remaining input. -/
theorem readLoop_characterization : ∀ input buf : List Nat, ReadLoopSpec input buf := by
  intro input
  induction input with
  | nil =>
    intro buf
    exact ⟨0, by simp, by simp [readLoop], fun m h1 hlt => by omega, by simp⟩
  | cons c rest ih =>
    intro buf
    by_cases hg : (c != 99 || !((buf ++ [c]).contains 27)) = true
    · refine readLoopSpec_cons_cont c rest buf (ih (buf ++ [c])) ?_ ?_
      · rw [da1Stop_concat]
        rcases Bool.or_eq_true _ _ |>.mp hg with h | h
        · rw [bne_iff_ne] at h
          simp [h]
        · rw [Bool.not_eq_true'] at h
          rw [h]
          simp
      · rw [readLoop.eq_def]
        simp only []
        rw [if_pos hg]
    · by_cases hp : (ascii "[?").isPrefixOf (afterLastEsc (buf ++ [c])) = true
      · refine ⟨1, by simp, ?_, fun m h1 hlt => by omega, ?_⟩
        · rw [readLoop.eq_def]
          simp only []
          rw [if_neg hg, if_pos hp]
          simp [List.take_succ_cons]
        · intro _
          have hcs : (c != 99 || !((buf ++ [c]).contains 27)) = false :=
            Bool.eq_false_iff.mpr hg
          rcases Bool.or_eq_false_iff.mp hcs with ⟨hc, hcont⟩
          rw [bne_eq_false_iff_eq] at hc
          rw [Bool.not_eq_false'] at hcont
          have harr : buf ++ (c :: rest).take 1 = buf ++ [c] := by
            simp [List.take_succ_cons]
          rw [harr, da1Stop_concat, hcont, hp, hc]
          decide
      · refine readLoopSpec_cons_cont c rest buf (ih (buf ++ [c])) ?_ ?_
        · rw [da1Stop_concat]
          rw [Bool.not_eq_true] at hp
          simp [hp]
        · rw [readLoop.eq_def]
          simp only []
          rw [if_neg hg, if_neg (by simpa using hp)]

/-- C2: `read_until_da1` appends exactly one byte per read, in input
order — its result is a prefix of the available input — and it stops at
the first position where the newest byte is 0x63 and the buffer after the
most recent 0x1b starts with the bytes of `"[?"` (`da1Stop`); a byte 0x63
arriving while that backward-scan condition fails never terminates the
read, and only EOF or the timeout ends it otherwise. -/
theorem c2_read_until_da1_terminator (input : List Nat) :
    ∃ n, n ≤ input.length ∧
      read_until_da1 input = input.take n ∧
      (∀ m, 1 ≤ m → m < n → da1Stop (input.take m) = false) ∧
      (n < input.length → da1Stop (input.take n) = true) := by
  obtain ⟨n, h1, h2, h3, h4⟩ := readLoop_characterization input []
  exact ⟨n, h1, by simpa [read_until_da1] using h2,
    fun m hm hlt => by simpa using h3 m hm hlt,
    fun hlt => by simpa using h4 hlt⟩

/-- Counterexample to C4 as stated: under the drift-prone condition each
of the three `execute!` positioning calls flushes the stream, so a call
performs four flushes, not one. -/
theorem c4_counterexample :
    (move_lock true 0 0 [] true).1.count MoveEvent.flushEv = 4 ∧
      (move_lock true 0 0 [] true).1.count MoveEvent.flushEv ≠ 1 := by decide

/-- C4 (amended): for every `move_lock` call whose callback does not
itself flush, the stream is flushed exactly once when the drift-prone
condition is absent and four times (three during redundant positioning,
before the callback) when it holds; on both paths and for either callback
outcome, the final flush is the last event, immediately after the
restoration instruction, and the callback result is returned unchanged. -/
theorem c4_flush_after_restore (drift : Bool) (x y : Nat)
    (cbTrace : List MoveEvent) (cbOk : Bool)
    (hcb : cbTrace.count MoveEvent.flushEv = 0) :
    (move_lock drift x y cbTrace cbOk).1.count MoveEvent.flushEv =
        (if drift then 4 else 1) ∧
      (move_lock drift x y cbTrace cbOk).1.getLast? = some MoveEvent.flushEv ∧
      (move_lock drift x y cbTrace cbOk).1.dropLast.getLast? =
        some MoveEvent.restorePos ∧
      (move_lock drift x y cbTrace cbOk).2 = cbOk := by
  cases drift
  case false =>
    have htr : (move_lock false x y cbTrace cbOk).1 =
        (([MoveEvent.savePos, MoveEvent.moveTo x y] ++ cbTrace) ++ [MoveEvent.restorePos]) ++
          [MoveEvent.flushEv] := by
      simp [move_lock]
    refine ⟨?_, ?_, ?_, rfl⟩
    · rw [htr]
      simp [List.count_append, hcb]
    · rw [htr, List.getLast?_concat]
    · rw [htr, List.dropLast_concat, List.getLast?_concat]
  case true =>
    have htr : (move_lock true x y cbTrace cbOk).1 =
        ((([MoveEvent.savePos, MoveEvent.moveTo x y, MoveEvent.show, MoveEvent.flushEv,
            MoveEvent.moveTo x y, MoveEvent.show, MoveEvent.flushEv,
            MoveEvent.moveTo x y, MoveEvent.show, MoveEvent.flushEv,
            MoveEvent.sleepMs 1] ++ cbTrace) ++ [MoveEvent.hide]) ++ [MoveEvent.restorePos]) ++
          [MoveEvent.flushEv] := by
      simp [move_lock]
    refine ⟨?_, ?_, ?_, rfl⟩
    · rw [htr]
      simp [List.count_append, hcb]
    · rw [htr, List.getLast?_concat]
    · rw [htr, List.dropLast_concat, List.getLast?_concat]

/-- Witness for C4 (amended) at a concrete non-drift call with a
non-flushing callback write. -/
theorem c4_flush_after_restore_witness :
    (move_lock false 2 3 [MoveEvent.cbWrite 7] true).1.count MoveEvent.flushEv = 1 ∧
      (move_lock false 2 3 [MoveEvent.cbWrite 7] true).1.getLast? =
        some MoveEvent.flushEv ∧
      (move_lock false 2 3 [MoveEvent.cbWrite 7] true).1.dropLast.getLast? =
        some MoveEvent.restorePos ∧
      (move_lock false 2 3 [MoveEvent.cbWrite 7] true).2 = true :=
  c4_flush_after_restore false 2 3 [MoveEvent.cbWrite 7] true (by decide)

/-- Counterexample to C5 as stated: the TERM match of `detect` has six
exact-value arms, not seven (the TERM_PROGRAM match does have ten). -/
theorem c5_counterexample :
    programVars.length = 10 ∧ termVars.length = 6 ∧ termVars.length ≠ 7 := by decide

/-- C5 (amended): past the marker stages, `detect` matches the
program-identity string against exactly ten exact values, then the
terminal-type string against exactly six exact values, before falling back
to the probe. -/
theorem c5_identity_string_stages (e : Env)
    (h1 : (e.envExists "NVIM_LOG_FILE" && e.envExists "NVIM") = false)
    (h2 : envVars.find? (fun v => e.envExists v.1) = none) :
    programVars.length = 10 ∧ termVars.length = 6 ∧
      detect e =
        (match lookupStr e.program programVars with
         | some em => em
         | none =>
           match lookupStr e.term termVars with
           | some em => em
           | none => unwrapOr (via_csi e).1 (Emulator.Unknown [])) := by
  refine ⟨by decide, by decide, ?_⟩
  rw [detect, if_neg (by simp [h1]), h2]
  simp [via_env]

/-- Witness for C5 (amended): at a concrete environment with
`TERM_PROGRAM = "vscode"` and no markers, the stage-3 characterization
gives the `VSCode` variant. -/
theorem c5_identity_string_stages_witness :
    programVars.length = 10 ∧ termVars.length = 6 ∧ detect envVscode = Emulator.VSCode := by
  have h := c5_identity_string_stages envVscode rfl (by decide)
  exact ⟨h.1, h.2.1, by rw [h.2.2]; decide⟩

/-- Counterexample to C6 as stated: a response containing `WezTerm` with a
`kitty` occurrence elsewhere classifies as `Kitty`, because the six names
are checked in declared order and the first hit wins. -/
theorem c6_counterexample :
    listInfix (ascii "WezTerm") (ascii "kittyWezTerm") = true ∧
      classify (ascii "kittyWezTerm") = Emulator.Kitty ∧
      classify (ascii "kittyWezTerm") ≠ Emulator.WezTerm := by decide

/-- C6 (amended): every response containing `WezTerm` and none of the
earlier-checked names `kitty`, `Konsole`, `iTerm2` classifies as the
`WezTerm` variant, regardless of the surrounding bytes. -/
theorem c6_wezterm_substring (resp : List Nat)
    (hw : listInfix (ascii "WezTerm") resp = true)
    (h1 : listInfix (ascii "kitty") resp = false)
    (h2 : listInfix (ascii "Konsole") resp = false)
    (h3 : listInfix (ascii "iTerm2") resp = false) :
    classify resp = Emulator.WezTerm := by
  simp [classify, namesTable, List.find?, h1, h2, h3, hw]

/-- Witness for C6 (amended) at the bare response `WezTerm` surrounded by
unrelated bytes. -/
theorem c6_wezterm_substring_witness :
    classify (ascii "zzWezTerm!!") = Emulator.WezTerm :=
  c6_wezterm_substring (ascii "zzWezTerm!!") (by decide) (by decide) (by decide) (by decide)

/-- C7: a response containing none of the six names classifies as
`Unknown`; its adapter list contains `KgpOld` exactly when the
acknowledgment substring occurs and `Sixel` exactly when one of the four
sixel needles occurs; with both signals the list is
`[KgpOld, Sixel]` in that order, and with neither it is empty. -/
theorem c7_unknown_adapter_signals (resp : List Nat)
    (h : ∀ p ∈ namesTable, listInfix p.1 resp = false) :
    classify resp = Emulator.Unknown (Emulator.adapters (classify resp)) ∧
      (Adapter.KgpOld ∈ Emulator.adapters (classify resp) ↔
        listInfix kgpAckPat resp = true) ∧
      (Adapter.Sixel ∈ Emulator.adapters (classify resp) ↔
        sixelPats.any (fun s => listInfix s resp) = true) ∧
      (listInfix kgpAckPat resp = true →
        sixelPats.any (fun s => listInfix s resp) = true →
        Emulator.adapters (classify resp) = [Adapter.KgpOld, Adapter.Sixel]) ∧
      (listInfix kgpAckPat resp = false →
        sixelPats.any (fun s => listInfix s resp) = false →
        Emulator.adapters (classify resp) = []) := by
  have hf : namesTable.find? (fun p => listInfix p.1 resp) = none :=
    List.find?_eq_none.mpr (fun x hx => by simp [h x hx])
  cases hk : listInfix kgpAckPat resp <;>
    cases hs : sixelPats.any (fun s => listInfix s resp) <;>
      simp [classify, hf, hk, hs, Emulator.adapters]

/-- Witness for C7 at a concrete response carrying no name and both
capability signals. -/
theorem c7_unknown_adapter_signals_witness :
    classify (ascii "\x1b_Gi=31;OK\x1b[?62;4c") =
        Emulator.Unknown (Emulator.adapters (classify (ascii "\x1b_Gi=31;OK\x1b[?62;4c"))) ∧
      Emulator.adapters (classify (ascii "\x1b_Gi=31;OK\x1b[?62;4c")) =
        [Adapter.KgpOld, Adapter.Sixel] := by
  have h := c7_unknown_adapter_signals (ascii "\x1b_Gi=31;OK\x1b[?62;4c") (by decide)
  exact ⟨h.1, h.2.2.2.1 (by decide) (by decide)⟩

/-- Everything in an insertion result is the inserted element or one of
the old ones. -/
theorem mem_insertOrd {le : File → File → Bool} {x w : File} {l : List File}
    (h : w ∈ insertOrd le x l) : w = x ∨ w ∈ l := by
  induction l with
  | nil => simpa [insertOrd] using h
  | cons y ys ih =>
    rw [insertOrd] at h
    by_cases hle : le x y = true
    · rw [if_pos hle] at h
      rcases List.mem_cons.mp h with h1 | h2
      · exact Or.inl h1
      · exact Or.inr h2
    · rw [if_neg hle] at h
      rcases List.mem_cons.mp h with h1 | h2
      · exact Or.inr (List.mem_cons.mpr (Or.inl h1))
      · rcases ih h2 with h3 | h4
        · exact Or.inl h3
        · exact Or.inr (List.mem_cons.mpr (Or.inr h4))

/-- Insertion preserves directory-first order for a comparator that always
ranks directories below non-directories. -/
theorem pairwise_insertOrd (le : File → File → Bool)
    (hle : ∀ a b, le a b = true → DirsFirstRel a b)
    (hgt : ∀ a b, le a b = false → DirsFirstRel b a)
    (x : File) : ∀ l : List File, List.Pairwise DirsFirstRel l →
      List.Pairwise DirsFirstRel (insertOrd le x l) := by
  intro l
  induction l with
  | nil => intro _; simp [insertOrd, DirsFirstRel]
  | cons y ys ih =>
    intro hl
    rw [List.pairwise_cons] at hl
    obtain ⟨hy, hys⟩ := hl
    rw [insertOrd]
    by_cases hle1 : le x y = true
    · rw [if_pos hle1, List.pairwise_cons]
      refine ⟨?_, List.pairwise_cons.mpr ⟨hy, hys⟩⟩
      intro z hz
      rcases List.mem_cons.mp hz with rfl | hz2
      · exact hle x z hle1
      · intro hzdir
        exact hle x y hle1 (hy z hz2 hzdir)
    · rw [if_neg hle1, List.pairwise_cons]
      refine ⟨?_, ih hys⟩
      intro w hw
      rcases mem_insertOrd hw with h1 | hw2
      · rw [h1]
        exact hgt x y (Bool.eq_false_iff.mpr hle1)
      · exact hy w hw2

/-- The comparison sort puts every directory before every non-directory
whenever the comparator forces the promotion in both directions. -/
theorem pairwise_sortUnstableBy (c : File → File → Ordering)
    (h1 : ∀ a b, a.isDir = false → b.isDir = true → c a b = Ordering.gt)
    (h2 : ∀ a b, a.isDir = true → b.isDir = false → c a b = Ordering.lt) :
    ∀ l : List File, List.Pairwise DirsFirstRel (sortUnstableBy c l) := by
  have hle : ∀ a b, (c a b != Ordering.gt) = true → DirsFirstRel a b := by
    intro a b hab hbdir
    by_contra hnd
    rw [Bool.not_eq_true] at hnd
    rw [h1 a b hnd hbdir] at hab
    exact absurd hab (by decide)
  have hgt : ∀ a b, (c a b != Ordering.gt) = false → DirsFirstRel b a := by
    intro a b hab hadir
    by_contra hnd
    rw [Bool.not_eq_true] at hnd
    rw [h2 a b hadir hnd] at hab
    exact absurd hab (by decide)
  intro l
  induction l with
  | nil => simp [sortUnstableBy]
  | cons x xs ih =>
    rw [sortUnstableBy]
    exact pairwise_insertOrd _ hle hgt x _ ih

/-- When `dir_first` holds, the promotion ranks a non-directory above a
directory. -/
theorem promote_gt (s : FilesSorter) (hdf : s.dir_first = true) {a b : File}
    (ha : a.isDir = false) (hb : b.isDir = true) :
    s.promote a b = Ordering.gt := by
  simp [FilesSorter.promote, hdf, ha, hb, cmpBool]

/-- When `dir_first` holds, the promotion ranks a directory below a
non-directory. -/
theorem promote_lt (s : FilesSorter) (hdf : s.dir_first = true) {a b : File}
    (ha : a.isDir = true) (hb : b.isDir = false) :
    s.promote a b = Ordering.lt := by
  simp [FilesSorter.promote, hdf, ha, hb, cmpBool]

/-- `FilesSorter::cmp` returns a non-`Equal` promotion unchanged, for any
key comparison and either value of `reverse`. -/
theorem cmp_promote_ne {T : Type} (s : FilesSorter) (c : T → T → Ordering) (a b : T)
    {p : Ordering} (hp : p ≠ Ordering.eq) : s.cmp c a b p = p := by
  have hbne : (p != Ordering.eq) = true := by
    cases hq : p
    · decide
    · exact absurd hq hp
    · decide
  unfold FilesSorter.cmp
  rw [if_pos hbne]

/-- Every sorting comparator (for a sort key other than `None`) returns a
non-`Equal` promotion unchanged. -/
theorem sortCmp_promote (s : FilesSorter) (sizes : Nat → Option Nat)
    (nats : List Nat → List Nat → Bool → Ordering) (trf : List Nat → List Nat)
    (rng : File → File → Nat × Nat) (a b : File)
    (hby : s.by1 ≠ SortBy.None) (hp : s.promote a b ≠ Ordering.eq) :
    sortCmp s sizes nats trf rng a b = s.promote a b := by
  have hc : ∀ {T : Type} (c : T → T → Ordering) (x y : T),
      s.cmp c x y (s.promote a b) = s.promote a b :=
    fun c x y => cmp_promote_ne s c x y hp
  have hbeq : (s.promote a b == Ordering.eq) = false := by
    cases hq : s.promote a b
    · decide
    · exact absurd hq hp
    · decide
  have hbne : (s.promote a b != Ordering.eq) = true := by
    cases hq : s.promote a b
    · decide
    · exact absurd hq hp
    · decide
  cases hB : s.by1
  case None => exact absurd hB hby
  all_goals
    simp [sortCmp, hB, byAlphabetical, naturalCmp, hc, hbeq, hbne]

/-- For every sort key other than `None`, `FilesSorter::sort` sorts with
the key's comparator. -/
theorem sortFiles_eq_sortUnstableBy (s : FilesSorter) (sizes : Nat → Option Nat)
    (nats : List Nat → List Nat → Bool → Ordering) (trf : List Nat → List Nat)
    (rng : File → File → Nat × Nat) (items : List File)
    (hby : s.by1 ≠ SortBy.None) :
    s.sortFiles sizes nats trf rng items =
      sortUnstableBy (sortCmp s sizes nats trf rng) items := by
  cases hB : s.by1
  case None => exact absurd hB hby
  all_goals simp [FilesSorter.sortFiles, hB]

/-- Counterexample to C9 as stated: under `SortBy::None` with `dir_first`
set, sorting `[file, dir]` leaves the non-directory first. -/
theorem c9_counterexample :
    sorterNone.dir_first = true ∧
      sorterNone.sortFiles (fun _ => none) (fun _ _ _ => Ordering.eq) id
        (fun _ _ => (0, 0)) [plainFile, plainDir] = [plainFile, plainDir] ∧
      ¬ List.Pairwise DirsFirstRel
        (sorterNone.sortFiles (fun _ => none) (fun _ _ _ => Ordering.eq) id
          (fun _ _ => (0, 0)) [plainFile, plainDir]) := by
  refine ⟨rfl, rfl, ?_⟩
  intro h
  rw [show sorterNone.sortFiles (fun _ => none) (fun _ _ _ => Ordering.eq) id
      (fun _ _ => (0, 0)) [plainFile, plainDir] = [plainFile, plainDir] from rfl,
    List.pairwise_cons] at h
  exact absurd (h.1 plainDir (by simp) rfl) (by decide)

/-- C9 (amended): for every sorter with `dir_first` set and any sort key
other than `None`, for either value of `reverse` and any external
`natsort`, transliteration, size map and random draws, the sorted output
never places a non-directory before a directory: `reverse` only inverts
the within-group comparison, never the promotion. -/
theorem c9_dir_first_partition (s : FilesSorter) (sizes : Nat → Option Nat)
    (nats : List Nat → List Nat → Bool → Ordering) (trf : List Nat → List Nat)
    (rng : File → File → Nat × Nat) (items : List File)
    (hdf : s.dir_first = true) (hby : s.by1 ≠ SortBy.None) :
    List.Pairwise DirsFirstRel (s.sortFiles sizes nats trf rng items) := by
  rw [sortFiles_eq_sortUnstableBy s sizes nats trf rng items hby]
  apply pairwise_sortUnstableBy
  · intro a b ha hb
    rw [sortCmp_promote s sizes nats trf rng a b hby
      (by rw [promote_gt s hdf ha hb]; decide)]
    exact promote_gt s hdf ha hb
  · intro a b ha hb
    rw [sortCmp_promote s sizes nats trf rng a b hby
      (by rw [promote_lt s hdf ha hb]; decide)]
    exact promote_lt s hdf ha hb

/-- Witness for C9 (amended) at a concrete reversed alphabetical sorter
and a concrete file list. -/
theorem c9_dir_first_partition_witness :
    List.Pairwise DirsFirstRel
      (sorterAlpha.sortFiles (fun _ => none) (fun _ _ _ => Ordering.eq) id
        (fun _ _ => (0, 0)) [plainFile, plainDir]) :=
  c9_dir_first_partition sorterAlpha (fun _ => none) (fun _ _ _ => Ordering.eq) id
    (fun _ _ => (0, 0)) [plainFile, plainDir] rfl (by decide)

/-- C10: the named variants `Neovim`, `Apple` and `Urxvt` carry an empty
adapter list, so a successful named detection — not only the `Unknown`
fallback — may hand the renderer zero supported protocols. -/
theorem c10_named_variants_empty_adapters :
    Emulator.adapters Emulator.Neovim = [] ∧
      Emulator.adapters Emulator.Apple = [] ∧
      Emulator.adapters Emulator.Urxvt = [] ∧
      (∀ l, Emulator.Neovim ≠ Emulator.Unknown l) ∧
      (∀ l, Emulator.Apple ≠ Emulator.Unknown l) ∧
      (∀ l, Emulator.Urxvt ≠ Emulator.Unknown l) :=
  ⟨rfl, rfl, rfl, fun _ h => Emulator.noConfusion h, fun _ h => Emulator.noConfusion h,
    fun _ h => Emulator.noConfusion h⟩
